import Mathlib

/-!
# Steam client core: Steam Guard codes and the request rate limiter

A shallow embedding of `steam/guard.go`, of the rate limiter and the
configuration loader of `steam/config.go`, and of the operations of `api.go`,
`auth.go`, `bot.go`, `trade.go` and `market.go` up to their call of the HTTP
client, together with the library routines they call (`encoding/base64`,
`crypto/sha1`, `crypto/hmac`, and on ASCII text `strings` and `fmt.Sscanf`).

Conventions.
* A Go `string` or `[]byte` is a list of bytes, each byte a natural number
  below 256 (`Bytes`).  A conversion `byte(x)` is written `x % 256`.
* Go `int`/`int64` values are mathematical integers; the operations used by
  the embedded code cannot overflow, except where a reduction is written out.
* A Go function returning `(T, error)` returns `Except Failure T`; a run-time
  panic is the failure `Failure.panic`.
-/

namespace Steam

/-- A Go byte string (`string` or `[]byte`). -/
abbrev Bytes := List Nat

/-- The bytes of an ASCII literal, used to write string constants. -/
def ascii (s : String) : Bytes := s.toList.map Char.toNat

/-- How a call can fail: with a returned non-nil `error`, or with a run-time panic. -/
inductive Failure where
  | error (msg : String)
  | panic (msg : String)
  deriving DecidableEq, Repr

/-- Indexing `xs[i]` with Go's bounds check. -/
def index (xs : Bytes) (i : Nat) : Except Failure Nat :=
  match xs.get? i with
  | some b => .ok b
  | none => .error (.panic "index out of range")

/-! ## `encoding/base64`, `StdEncoding` -/

/-- The alphabet of `base64.StdEncoding`. -/
def encodeStd : Bytes :=
  ascii "ABCDEFGHIJKLMNOPQRSTUVWXYZabcdefghijklmnopqrstuvwxyz0123456789+/"

/-- The padding character `=` of `StdEncoding`. -/
def padChar : Nat := 61

/-- The table `enc.decodeMap`: the 6-bit value of an alphabet byte, `0xff` for any other byte. -/
def decodeMap (c : Nat) : Nat :=
  if 65 ≤ c ∧ c ≤ 90 then c - 65
  else if 97 ≤ c ∧ c ≤ 122 then c - 97 + 26
  else if 48 ≤ c ∧ c ≤ 57 then c - 48 + 52
  else if c = 43 then 62
  else if c = 47 then 63
  else 0xff

/-- The loop `for si < len(src) && (src[si] == '\n' || src[si] == '\r') { si++ }`. -/
def skipNewlines : Bytes → Bytes
  | [] => []
  | c :: rest => if c = 10 ∨ c = 13 then skipNewlines rest else c :: rest

/-- The tail of `decodeQuantum`: the `dlen - 1` bytes held by `dlen` six-bit digits
(`dbuf` is padded with zero digits up to four). -/
def quantumBytes (dbuf : List Nat) : Bytes :=
  let val := (dbuf.getD 0 0) <<< 18 ||| (dbuf.getD 1 0) <<< 12 |||
    (dbuf.getD 2 0) <<< 6 ||| (dbuf.getD 3 0)
  ([(val >>> 16) % 256, (val >>> 8) % 256, val % 256]).take (dbuf.length - 1)

/-- The decoding loop of `Encoding.Decode` with `decodeQuantum` inlined: `dbuf` holds
the digits of the quantum being read, `dst` the bytes decoded so far.  The byte offset
carried by `CorruptInputError` is not recorded: `none` is any such error. -/
def decodeLoop : Bytes → List Nat → Bytes → Option Bytes
  | [], dbuf, dst => if dbuf = [] then some dst else none
  | c :: rest, dbuf, dst =>
    if decodeMap c ≠ 0xff then
      if dbuf.length = 3 then decodeLoop rest [] (dst ++ quantumBytes (dbuf ++ [decodeMap c]))
      else decodeLoop rest (dbuf ++ [decodeMap c]) dst
    else if c = 10 ∨ c = 13 then decodeLoop rest dbuf dst
    else if c ≠ padChar then none
    else
      match dbuf.length with
      | 0 => none
      | 1 => none
      | 2 =>
        match skipNewlines rest with
        | [] => none
        | c2 :: rest2 =>
          if c2 ≠ padChar then none
          else if skipNewlines rest2 = [] then some (dst ++ quantumBytes dbuf) else none
      | _ => if skipNewlines rest = [] then some (dst ++ quantumBytes dbuf) else none

/-- Go's `base64.StdEncoding.DecodeString`: `none` when it returns a non-nil error. -/
def DecodeString (s : Bytes) : Option Bytes := decodeLoop s [] []

/-- Go's `Encoding.Encode` for `StdEncoding`: three bytes become four digits, and a
final group of one or two bytes is padded with `=`. -/
def Encode : Bytes → Bytes
  | [] => []
  | [a] =>
    let val := a <<< 16
    [encodeStd.getD (val >>> 18 &&& 0x3F) 0, encodeStd.getD (val >>> 12 &&& 0x3F) 0,
      padChar, padChar]
  | [a, b] =>
    let val := a <<< 16 ||| b <<< 8
    [encodeStd.getD (val >>> 18 &&& 0x3F) 0, encodeStd.getD (val >>> 12 &&& 0x3F) 0,
      encodeStd.getD (val >>> 6 &&& 0x3F) 0, padChar]
  | a :: b :: c :: rest =>
    let val := a <<< 16 ||| b <<< 8 ||| c
    encodeStd.getD (val >>> 18 &&& 0x3F) 0 :: encodeStd.getD (val >>> 12 &&& 0x3F) 0 ::
      encodeStd.getD (val >>> 6 &&& 0x3F) 0 :: encodeStd.getD (val &&& 0x3F) 0 :: Encode rest

/-- Go's `base64.StdEncoding.EncodeToString`. -/
def EncodeToString (src : Bytes) : Bytes := Encode src

/-! ## `crypto/sha1` and `crypto/hmac` -/

/-- A 32-bit word is a natural number reduced modulo `2^32`. -/
def w32 (x : Nat) : Nat := x % 2 ^ 32

/-- Rotation of a 32-bit word to the left (`bits.RotateLeft32`). -/
def rotl (x n : Nat) : Nat := w32 (x <<< n ||| x >>> (32 - n))

/-- Complement of a 32-bit word. -/
def not32 (x : Nat) : Nat := 2 ^ 32 - 1 - x

/-- The five chaining words `h0..h4` of SHA-1. -/
structure Digest where
  h0 : Nat
  h1 : Nat
  h2 : Nat
  h3 : Nat
  h4 : Nat
  deriving DecidableEq, Repr

/-- The initial chaining value of SHA-1. -/
def sha1Init : Digest := ⟨0x67452301, 0xEFCDAB89, 0x98BADCFE, 0x10325476, 0xC3D2E1F0⟩

/-- The big-endian 32-bit word held by four bytes. -/
def beWord (b0 b1 b2 b3 : Nat) : Nat :=
  w32 ((b0 % 256) <<< 24 ||| (b1 % 256) <<< 16 ||| (b2 % 256) <<< 8 ||| (b3 % 256))

/-- The sixteen message words of a 64-byte block. -/
def blockWords : Nat → Bytes → List Nat
  | 0, _ => []
  | n + 1, bs =>
    beWord (bs.getD 0 0) (bs.getD 1 0) (bs.getD 2 0) (bs.getD 3 0) :: blockWords n (bs.drop 4)

/-- The message schedule, most recent word first: `n` further words are added, each
`w[t] = rotl (w[t-3] ^ w[t-8] ^ w[t-14] ^ w[t-16]) 1`. -/
def expand : Nat → List Nat → List Nat
  | 0, ws => ws
  | n + 1, ws =>
    expand n (rotl (ws.getD 2 0 ^^^ ws.getD 7 0 ^^^ ws.getD 13 0 ^^^ ws.getD 15 0) 1 :: ws)

/-- The round function and round constant of round `t`. -/
def roundFK (t b c d : Nat) : Nat × Nat :=
  if t < 20 then (b &&& c ||| not32 b &&& d, 0x5A827999)
  else if t < 40 then (b ^^^ c ^^^ d, 0x6ED9EBA1)
  else if t < 60 then (b &&& c ||| b &&& d ||| c &&& d, 0x8F1BBCDC)
  else (b ^^^ c ^^^ d, 0xCA62C1D6)

/-- The rounds of the compression function over the schedule words `ws`, starting at round `t`. -/
def rounds : List Nat → Nat → Digest → Digest
  | [], _, s => s
  | w :: ws, t, s =>
    let fk := roundFK t s.h1 s.h2 s.h3
    rounds ws (t + 1)
      ⟨w32 (rotl s.h0 5 + fk.1 + s.h4 + fk.2 + w), s.h0, rotl s.h1 30, s.h2, s.h3⟩

/-- The compression function: one 64-byte block is folded into the chaining value. -/
def compress (s : Digest) (block : Bytes) : Digest :=
  let ws := (expand 64 (blockWords 16 block).reverse).reverse
  let r := rounds ws 0 s
  ⟨w32 (s.h0 + r.h0), w32 (s.h1 + r.h1), w32 (s.h2 + r.h2), w32 (s.h3 + r.h3),
    w32 (s.h4 + r.h4)⟩

/-- The first `n` 64-byte blocks of `bs` folded into the chaining value. -/
def compressBlocks : Nat → Digest → Bytes → Digest
  | 0, s, _ => s
  | n + 1, s, bs => compressBlocks n (compress s (bs.take 64)) (bs.drop 64)

/-- The big-endian bytes of a 64-bit length. -/
def be64 (n : Nat) : Bytes :=
  [n >>> 56 % 256, n >>> 48 % 256, n >>> 40 % 256, n >>> 32 % 256,
    n >>> 24 % 256, n >>> 16 % 256, n >>> 8 % 256, n % 256]

/-- The padded message: a `0x80` byte, zero bytes up to 56 modulo 64, then the bit length. -/
def sha1Pad (msg : Bytes) : Bytes :=
  msg ++ 0x80 :: List.replicate ((119 - msg.length % 64) % 64) 0 ++
    be64 ((msg.length * 8) % 2 ^ 64)

/-- The four big-endian bytes of a 32-bit word. -/
def wordBytes (w : Nat) : Bytes := [w >>> 24 % 256, w >>> 16 % 256, w >>> 8 % 256, w % 256]

/-- The 20 bytes of a chaining value. -/
def digestBytes (s : Digest) : Bytes :=
  wordBytes s.h0 ++ wordBytes s.h1 ++ wordBytes s.h2 ++ wordBytes s.h3 ++ wordBytes s.h4

/-- The final chaining value of SHA-1 on a message. -/
def sha1State (msg : Bytes) : Digest :=
  compressBlocks ((sha1Pad msg).length / 64) sha1Init (sha1Pad msg)

/-- The SHA-1 checksum (`sha1.Sum`). -/
def sha1 (msg : Bytes) : Bytes := digestBytes (sha1State msg)

/-- The key block of HMAC: a key longer than the block size is hashed first, and the
result is padded with zero bytes to 64 bytes. -/
def hmacKeyBlock (key : Bytes) : Bytes :=
  let k := if key.length > 64 then sha1 key else key
  k ++ List.replicate (64 - k.length) 0

/-- The final chaining value of HMAC-SHA1. -/
def hmacState (key msg : Bytes) : Digest :=
  let kb := hmacKeyBlock key
  sha1State (kb.map (· ^^^ 0x5c) ++ sha1 (kb.map (· ^^^ 0x36) ++ msg))

/-- The digest of `hmac.New(sha1.New, key)` after `Write(msg)`: `Sum(nil)`. -/
def hmacSha1 (key msg : Bytes) : Bytes := digestBytes (hmacState key msg)

/-! ## `steam/guard.go` -/

/-- The conversion `byte(x)` of an integer: its low eight bits. -/
def byte (x : Int) : Nat := (x % 256).toNat

/-- The mask `x & 0xFF` of a two's complement integer: its low eight bits, a value in
`0..255` also when `x` is negative (`Int.land x 255`, see `land_255`). -/
def andFF (x : Int) : Int := x % 256

/-- The loop `for i := 7; i >= 0; i-- { timeBytes[i] = byte(t & 0xFF); t >>= 8 }`, entered
with `i + 1` iterations left: it writes positions `i`, `i - 1`, ..., `0`. -/
def fillTimeBytes : Nat → Int → Bytes → Bytes
  | 0, _, timeBytes => timeBytes
  | i + 1, t, timeBytes =>
    fillTimeBytes i (t >>> (8 : Nat)) (timeBytes.set i (byte (andFF t)))

/-- The slice `timeBytes` once the loop has run: `make([]byte, 8)` filled from `t`. -/
def timeBytesOf (t : Int) : Bytes := fillTimeBytes 8 t (List.replicate 8 0)

/-- The alphabet `chars` of Steam Guard codes. -/
def chars : Bytes := ascii "23456789BCDFGHJKMNPQRTVWXY"

/-- The conversion `string(b)` of a byte: the UTF-8 encoding of the code point `b`. -/
def stringOfByte (b : Nat) : Bytes :=
  if b < 0x80 then [b] else [0xC0 ||| b >>> 6, 0x80 ||| b &&& 0x3F]

/-- The dynamic truncation of `GenerateSteamGuardCode`: the offset `start` is a byte, so
`start+1` is reduced modulo 256, and the four reads are bounds-checked. -/
def truncate (hmacBytes : Bytes) : Except Failure Nat := do
  let last ← index hmacBytes 19
  let start := last &&& 0xF
  let b0 ← index hmacBytes start
  let b1 ← index hmacBytes ((start + 1) % 256)
  let b2 ← index hmacBytes ((start + 2) % 256)
  let b3 ← index hmacBytes ((start + 3) % 256)
  pure ((b0 &&& 0x7F) <<< 24 ||| (b1 &&& 0xFF) <<< 16 ||| (b2 &&& 0xFF) <<< 8 ||| (b3 &&& 0xFF))

/-- The loop `for i := 0; i < 5; i++ { steamGuardCode += string(chars[code%len(chars)]);
code /= len(chars) }` with `n` iterations left.  `code` is never negative. -/
def codeLoop : Nat → Nat → Bytes → Except Failure Bytes
  | 0, _, steamGuardCode => pure steamGuardCode
  | n + 1, code, steamGuardCode => do
    let c ← index chars (code % chars.length)
    codeLoop n (code / chars.length) (steamGuardCode ++ stringOfByte c)

/-- The message written to the HMAC by `GenerateSteamGuardCode` when `time.Now().Unix()`
is `now`: Go's `/` on integers truncates toward zero. -/
def counterBytes (now : Int) : Bytes := timeBytesOf (Int.tdiv now 30)

/-- The function `GenerateSteamGuardCode`, with the clock reading `time.Now().Unix()`
as the argument `now`. -/
def GenerateSteamGuardCode (now : Int) (sharedSecret : Bytes) : Except Failure Bytes := do
  let timestamp := Int.tdiv now 30
  let sharedSecretBytes ←
    match DecodeString sharedSecret with
    | some bs => pure bs
    | none => throw (Failure.error "failed to decode shared secret")
  let timeBytes := timeBytesOf timestamp
  let hmacBytes := hmacSha1 sharedSecretBytes timeBytes
  let code ← truncate hmacBytes
  codeLoop 5 code []

/-- The function documented as `GenerateConfirmationKey` (its name in the source is the
blank identifier). -/
def GenerateConfirmationKey (identitySecret tag : Bytes) (time : Int) :
    Except Failure Bytes := do
  let timeBytes := timeBytesOf time
  let identitySecretBytes ←
    match DecodeString identitySecret with
    | some bs => pure bs
    | none => throw (Failure.error "failed to decode identity secret")
  let data := timeBytes ++ tag
  let hmacBytes := hmacSha1 identitySecretBytes data
  pure (EncodeToString hmacBytes)

/-! ## `steam/config.go`: the rate limiter -/

/-- The state of a `RateLimiter`: `tokens` is the number of values buffered in the
channel `tokens` (whose capacity is `burst`), `ticker` the period of the ticker in
nanoseconds. -/
structure RateLimiter where
  tokens : Nat
  ticker : Int
  requestsPerSecond : Int
  burst : Int
  deriving DecidableEq, Repr

/-- The duration `time.Second` in nanoseconds. -/
def Second : Int := 1000000000

/-- The constructor `NewRateLimiter`: `make(chan struct{}, burst)` panics on a negative
size, the division on a zero divisor, `time.NewTicker` on a non-positive interval.  The
channel starts empty. -/
def NewRateLimiter (requestsPerSecond burst : Int) : Except Failure RateLimiter :=
  if burst < 0 then .error (.panic "makechan: size out of range")
  else if requestsPerSecond = 0 then .error (.panic "integer divide by zero")
  else if Int.tdiv Second requestsPerSecond ≤ 0 then
    .error (.panic "non-positive interval for NewTicker")
  else .ok ⟨0, Int.tdiv Second requestsPerSecond, requestsPerSecond, burst⟩

/-- One iteration of the refill goroutine, run on a tick of `ticker`:
`select { case rl.tokens <- struct{}{}: default: }`.  The send goes through when the
buffer has room and is dropped when it is full. -/
def tick (rl : RateLimiter) : RateLimiter :=
  if (rl.tokens : Int) < rl.burst then { rl with tokens := rl.tokens + 1 } else rl

/-- The method `Wait`: the receive `<-rl.tokens` completes when a value is buffered and
takes it; `none` when the channel is empty and the caller stays blocked. -/
def Wait (rl : RateLimiter) : Option RateLimiter :=
  match rl.tokens with
  | 0 => none
  | n + 1 => some { rl with tokens := n }

/-- What happens to a limiter: a tick of the ticker, or a `Wait` call that completes.  A
tick that hands its value to a caller blocked in `Wait` is the tick followed by that
`Wait`: with `burst ≥ 1` the channel is buffered and both leave the same state.  (With
`burst = 0` the channel is unbuffered and only such a hand-over lets a `Wait` complete;
the traces below then cover the ticks, not the `Wait` calls.) -/
inductive Event where
  | tick
  | wait
  deriving DecidableEq, Repr

/-- One event: a tick always happens, a `Wait` completes only when a permit is there. -/
def step (rl : RateLimiter) : Event → Option RateLimiter
  | .tick => some (tick rl)
  | .wait => Wait rl

/-- An interleaving of ticks and completed `Wait` calls; `none` when one of the `Wait`
calls of the trace cannot complete at its place. -/
def run (rl : RateLimiter) : List Event → Option RateLimiter
  | [] => some rl
  | e :: es => (step rl e).bind (fun rl' => run rl' es)

/-- The limiter built by `init`: `rateLimiter = NewRateLimiter(1, 5)`. -/
def rateLimiter : Except Failure RateLimiter := NewRateLimiter 1 5

/-! ## Reference definitions, written from the specification -/

/-- The 8-byte big-endian encoding of a number below `2^64`, most significant byte first. -/
def bigEndian8 (n : Nat) : Bytes :=
  (List.range 8).map (fun i => n / 256 ^ (7 - i) % 256)

/-- The value of a code read as a base-26 number whose first character is the least
significant digit, each character standing for its index in `chars`. -/
def base26Value : Bytes → Nat
  | [] => 0
  | c :: cs => chars.indexOf c + 26 * base26Value cs

/-! ## `steam/config.go`: the configuration and the package variables -/

/-- The field `RateLimit` of the variable `Config`. -/
structure RateLimitConfig where
  RequestsPerSecond : Int
  Burst : Int
  deriving DecidableEq, Repr

/-- The type of the variable `Config`. -/
structure ConfigValues where
  RateLimit : RateLimitConfig
  deriving DecidableEq, Repr

/-- A call made to the HTTP client (`http.Get`, `http.PostForm`, `Client.Do`): the
method and the URL.  The form body is not recorded. -/
structure Request where
  method : String
  url : Bytes
  deriving DecidableEq, Repr

/-- The package-level state: the variables `Config` and `rateLimiter`, and the calls
made to the HTTP client so far, oldest first. -/
structure Package where
  Config : ConfigValues
  rateLimiter : RateLimiter
  sent : List Request
  deriving DecidableEq, Repr

/-- Package initialisation: `Config` holds zero values, nothing has been sent, and
`init` runs `rateLimiter = NewRateLimiter(1, 5)`. -/
def init : Except Failure Package :=
  match NewRateLimiter 1 5 with
  | .ok rl => .ok ⟨⟨⟨0, 0⟩⟩, rl, []⟩
  | .error e => .error e

/-- The ASCII white space that `strings.TrimSpace` trims (it also trims the non-ASCII
Unicode spaces; configuration lines are taken as ASCII). -/
def isSpace (c : Nat) : Bool :=
  c = 9 || c = 10 || c = 11 || c = 12 || c = 13 || c = 32

/-- Go's `strings.TrimSpace` on ASCII text. -/
def TrimSpace (s : Bytes) : Bytes :=
  ((s.dropWhile isSpace).reverse.dropWhile isSpace).reverse

/-- Go's `strings.SplitN(line, ":", 2)`: the line cut at its first colon, or the line
alone when it has none. -/
def SplitN (line : Bytes) : List Bytes :=
  match line.span (fun c => c != 58) with
  | (a, []) => [a]
  | (a, _ :: b) => [a, b]

/-- The decimal digits accepted by the verb `%d`. -/
def isDigit (c : Nat) : Bool := 48 ≤ c && c ≤ 57

/-- The value of a run of decimal digits. -/
def digitsValue (tok : Bytes) : Nat := tok.foldl (fun acc c => 10 * acc + (c - 48)) 0

/-- Go's `fmt.Sscanf(value, "%d", &x)` for an `int` target, on a value with no leading
space: an optional sign, then the longest run of decimal digits, which must not be empty
and must fit in 64 bits; what follows the digits is left unread.  `none` is an error. -/
def Sscanf (value : Bytes) : Option Int :=
  let signed : Bool × Bytes :=
    match value with
    | 45 :: r => (true, r)
    | 43 :: r => (false, r)
    | r => (false, r)
  let tok := signed.2.takeWhile isDigit
  if tok = [] then none
  else
    let i : Int := if signed.1 then -(digitsValue tok : Int) else (digitsValue tok : Int)
    if -(2 ^ 63) ≤ i ∧ i < 2 ^ 63 then some i else none

/-- The loop of `LoadConfig` over the lines `scanner.Text()` yields; the result is the
package state when the function returns and the error it returns (`none` is `nil`).
`scanner.Err()` is taken to be `nil`. -/
def loadLines : List Bytes → Package → Package × Option String
  | [], g => (g, none)
  | text :: rest, g =>
    let line := TrimSpace text
    if line = [] ∨ line.head? = some 35 then loadLines rest g
    else
      match SplitN line with
      | [k, v] =>
        let key := TrimSpace k
        let value := TrimSpace v
        if key = ascii "rate_limit.requests_per_second" then
          match Sscanf value with
          | some n =>
            loadLines rest
              { g with Config := { RateLimit := { g.Config.RateLimit with RequestsPerSecond := n } } }
          | none => (g, some "Sscanf: expected integer")
        else if key = ascii "rate_limit.burst" then
          match Sscanf value with
          | some n =>
            loadLines rest
              { g with Config := { RateLimit := { g.Config.RateLimit with Burst := n } } }
          | none => (g, some "Sscanf: expected integer")
        else (g, some "unknown configuration key")
      | _ => (g, some "invalid line in config file")

/-- The function `LoadConfig`: `file` is the list of lines of the file at `filePath`, or
`none` when `os.Open` fails. -/
def LoadConfig (file : Option (List Bytes)) (g : Package) : Package × Option String :=
  match file with
  | none => (g, some "open: no such file")
  | some lines => loadLines lines g

/-! ## The operations that call the HTTP client

Each operation is followed up to its call of the HTTP client: the result is the package
state after that call, or `none` when the operation is blocked in `rateLimiter.Wait()`,
before it has called the client.  What the operation does with the response does not
touch the limiter and makes no further call. -/

set_option linter.unusedVariables false

/-- The struct `Guard`. -/
structure Guard where
  SharedSecret : Bytes
  IdentitySecret : Bytes
  deriving DecidableEq, Repr

/-- The struct `Bot`; its `Session` is the HTTP client. -/
structure Bot where
  APIKey : Bytes
  SteamGuard : Option Guard
  deriving DecidableEq, Repr

/-- The verb `%d` of `fmt.Sprintf`: the decimal form of an integer. -/
def fmtInt (n : Int) : Bytes := ascii (toString n)

/-- The call of the HTTP client with the given method and URL. -/
def send (method : String) (url : Bytes) (g : Package) : Package :=
  { g with sent := g.sent ++ [⟨method, url⟩] }

/-- The statement `rateLimiter.Wait()` on the package limiter. -/
def acquire (g : Package) : Option Package :=
  (Wait g.rateLimiter).map (fun rl => { g with rateLimiter := rl })

/-- The function `GetPlayerSummaries`: `rateLimiter.Wait()`, then `http.Get(url)`. -/
def GetPlayerSummaries (apiKey steamID : Bytes) (g : Package) : Option Package :=
  (acquire g).map (send "GET"
    (ascii "https://api.steampowered.com/ISteamUser/GetPlayerSummaries/v2/?key=" ++ apiKey ++
      ascii "&steamids=" ++ steamID))

/-- The function `GetPlayerInventories`: `rateLimiter.Wait()`, then `http.Get(url)`. -/
def GetPlayerInventories (apiKey steamID : Bytes) (appID contextID : Int) (g : Package) :
    Option Package :=
  (acquire g).map (send "GET"
    (ascii "https://steamcommunity.com/inventory/" ++ steamID ++ ascii "/" ++ fmtInt appID ++
      ascii "/" ++ fmtInt contextID ++ ascii "?l=english&count=5000"))

/-- The function `GetUserStatsForGame`: `rateLimiter.Wait()`, then `http.Get(url)`. -/
def GetUserStatsForGame (apiKey steamID : Bytes) (appID : Int) (g : Package) :
    Option Package :=
  (acquire g).map (send "GET"
    (ascii "https://api.steampowered.com/ISteamUserStats/GetUserStatsForGame/v2/?key=" ++
      apiKey ++ ascii "&steamid=" ++ steamID ++ ascii "&appid=" ++ fmtInt appID))

/-- The function `GetOwnedGames`: `rateLimiter.Wait()`, then `http.Get(url)`. -/
def GetOwnedGames (apiKey steamID : Bytes) (g : Package) : Option Package :=
  (acquire g).map (send "GET"
    (ascii "https://api.steampowered.com/IPlayerService/GetOwnedGames/v1/?key=" ++ apiKey ++
      ascii "&steamid=" ++ steamID ++
      ascii "&include_appinfo=true&include_played_free_games=true"))

/-- The function `GetRecentlyPlayedGames`: `rateLimiter.Wait()`, then `http.Get(url)`. -/
def GetRecentlyPlayedGames (apiKey steamID : Bytes) (g : Package) : Option Package :=
  (acquire g).map (send "GET"
    (ascii "https://api.steampowered.com/IPlayerService/GetRecentlyPlayedGames/v1/?key=" ++
      apiKey ++ ascii "&steamid=" ++ steamID))

/-- The function `PerformLogin`, with the clock reading `now`: when a `Guard` is given and
its code cannot be generated the function returns before any call; otherwise it calls
`http.PostForm`.  It has no `rateLimiter.Wait()`. -/
def PerformLogin (now : Int) (username password : Bytes) (steamGuard : Option Guard)
    (apiKey : Bytes) (g : Package) : Option Package :=
  match steamGuard with
  | none => some (send "POST" (ascii "https://steamcommunity.com/login/dologin") g)
  | some guard =>
    match GenerateSteamGuardCode now guard.SharedSecret with
    | .ok _ => some (send "POST" (ascii "https://steamcommunity.com/login/dologin") g)
    | .error _ => some g

/-- The method `Bot.Login`. -/
def Bot.Login (b : Bot) (now : Int) (username password : Bytes) (g : Package) :
    Option Package :=
  PerformLogin now username password b.SteamGuard b.APIKey g

/-- The method `Bot.AddFriend`: `http.NewRequest` on a constant URL, then
`b.Session.Do(req)`.  It has no `rateLimiter.Wait()`. -/
def Bot.AddFriend (b : Bot) (steamID : Bytes) (g : Package) : Option Package :=
  some (send "POST" (ascii "https://steamcommunity.com/actions/AddFriendAjax") g)

/-- The method `Bot.RemoveFriend`: `http.NewRequest`, then `b.Session.Do(req)`.  It has
no `rateLimiter.Wait()`. -/
def Bot.RemoveFriend (b : Bot) (steamID : Bytes) (g : Package) : Option Package :=
  some (send "POST" (ascii "https://steamcommunity.com/actions/RemoveFriendAjax") g)

/-- The method `Bot.AcceptFriendRequest`: `http.NewRequest`, then `b.Session.Do(req)`.
It has no `rateLimiter.Wait()`. -/
def Bot.AcceptFriendRequest (b : Bot) (steamID : Bytes) (g : Package) : Option Package :=
  some (send "POST" (ascii "https://steamcommunity.com/actions/AcceptFriendRequest") g)

/-- The struct `TradeOffer`. -/
structure TradeOffer where
  PartnerSteamID : Bytes
  ItemsToSend : Bytes
  ItemsToReceive : Bytes
  Message : Bytes
  deriving DecidableEq, Repr

/-- The method `Bot.SendTradeOffer`: `http.NewRequest`, then `b.Session.Do(req)`.  It
has no `rateLimiter.Wait()`. -/
def Bot.SendTradeOffer (b : Bot) (offer : TradeOffer) (g : Package) : Option Package :=
  some (send "POST" (ascii "https://steamcommunity.com/tradeoffer/new/send") g)

/-- The struct `MarketItem`. -/
structure MarketItem where
  AppID : Int
  ContextID : Int
  AssetID : Int
  Price : Int
  Currency : Bytes
  Qty : Int
  MarketName : Bytes
  deriving DecidableEq, Repr

/-- The method `Bot.ListMarketItem`: `http.NewRequest`, then `b.Session.Do(req)`.  It
has no `rateLimiter.Wait()`. -/
def Bot.ListMarketItem (b : Bot) (item : MarketItem) (g : Package) : Option Package :=
  some (send "POST" (ascii "https://steamcommunity.com/market/sellitem/") g)

/-! ## Lemmas on the library routines and the truncation -/

set_option maxRecDepth 100000 in
theorem sha1_abc :
    sha1 (ascii "abc") = [0xa9, 0x99, 0x3e, 0x36, 0x47, 0x06, 0x81, 0x6a, 0xba, 0x3e,
      0x25, 0x71, 0x78, 0x50, 0xc2, 0x6c, 0x9c, 0xd0, 0xd8, 0x9d] := by decide

set_option maxRecDepth 100000 in
theorem hmacSha1_jefe :
    hmacSha1 (ascii "Jefe") (ascii "what do ya want for nothing?") =
      [0xef, 0xfc, 0xdf, 0x6a, 0xe5, 0xeb, 0x2f, 0xa2, 0xd2, 0x74,
        0x16, 0xd5, 0xf1, 0x84, 0xdf, 0x9c, 0x25, 0x9a, 0x7c, 0x79] := by decide

set_option maxRecDepth 100000 in
theorem hmacSha1_long_key :
    hmacSha1 (List.replicate 80 0xaa)
        (ascii "Test Using Larger Than Block-Size Key - Hash Key First") =
      [0xaa, 0x4a, 0xe5, 0xe1, 0x52, 0x72, 0xd0, 0x0e, 0x95, 0x70,
        0x56, 0x37, 0xce, 0x8a, 0x3b, 0x55, 0xed, 0x40, 0x21, 0x12] := by decide

theorem DecodeString_examples :
    DecodeString (ascii "aGVsbG8gd29ybGQ=") = some (ascii "hello world") ∧
    DecodeString (ascii "aGVsbG8gd29ybGQ") = none ∧
    DecodeString (ascii "aGk=") = some (ascii "hi") ∧
    DecodeString (ascii "aGk") = none ∧
    DecodeString (ascii "aA==") = some (ascii "h") ∧
    DecodeString (ascii "aA=") = none ∧
    DecodeString (ascii "aA==aA==") = none ∧
    DecodeString (ascii "a-k=") = none ∧
    EncodeToString (ascii "hello world") = ascii "aGVsbG8gd29ybGQ=" ∧
    EncodeToString (ascii "hi") = ascii "aGk=" ∧
    EncodeToString (ascii "h") = ascii "aA==" := by decide

theorem index_eq (xs : Bytes) (i : Nat) (h : i < xs.length) : index xs i = .ok (xs.getD i 0) := by
  unfold index
  rw [List.get?_eq_get h, List.getD_eq_getElem _ _ h]
  rfl

theorem getD_lt (xs : Bytes) (hb : ∀ b ∈ xs, b < 256) (i : Nat) : xs.getD i 0 < 256 := by
  by_cases h : i < xs.length
  · rw [List.getD_eq_getElem _ _ h]; exact hb _ (List.getElem_mem _)
  · rw [List.getD_eq_default _ _ (by omega)]; norm_num

theorem truncate_eq (digest : Bytes) (hlen : digest.length = 20) :
    truncate digest = .ok
      ((digest.getD (digest.getD 19 0 &&& 0xF) 0 &&& 0x7F) <<< 24 |||
        (digest.getD ((digest.getD 19 0 &&& 0xF) + 1) 0 &&& 0xFF) <<< 16 |||
        (digest.getD ((digest.getD 19 0 &&& 0xF) + 2) 0 &&& 0xFF) <<< 8 |||
        (digest.getD ((digest.getD 19 0 &&& 0xF) + 3) 0 &&& 0xFF)) := by
  have hs : digest.getD 19 0 &&& 0xF ≤ 15 := Nat.and_le_right
  have e1 : ((digest.getD 19 0 &&& 0xF) + 1) % 256 = (digest.getD 19 0 &&& 0xF) + 1 := by omega
  have e2 : ((digest.getD 19 0 &&& 0xF) + 2) % 256 = (digest.getD 19 0 &&& 0xF) + 2 := by omega
  have e3 : ((digest.getD 19 0 &&& 0xF) + 3) % 256 = (digest.getD 19 0 &&& 0xF) + 3 := by omega
  unfold truncate
  rw [index_eq digest 19 (by omega)]
  simp only [bind, Except.bind, e1, e2, e3]
  rw [index_eq digest _ (by omega), index_eq digest _ (by omega), index_eq digest _ (by omega),
    index_eq digest _ (by omega)]
  rfl

theorem truncate_value_lt (b0 b1 b2 b3 : Nat) :
    (b0 &&& 0x7F) <<< 24 ||| (b1 &&& 0xFF) <<< 16 ||| (b2 &&& 0xFF) <<< 8 ||| (b3 &&& 0xFF)
      < 2 ^ 31 := by
  have h0 : b0 &&& 0x7F ≤ 0x7F := Nat.and_le_right
  have h1 : b1 &&& 0xFF ≤ 0xFF := Nat.and_le_right
  have h2 : b2 &&& 0xFF ≤ 0xFF := Nat.and_le_right
  have h3 : b3 &&& 0xFF ≤ 0xFF := Nat.and_le_right
  refine Nat.or_lt_two_pow (Nat.or_lt_two_pow (Nat.or_lt_two_pow ?_ ?_) ?_) ?_
  · rw [Nat.shiftLeft_eq]; omega
  · rw [Nat.shiftLeft_eq]; omega
  · rw [Nat.shiftLeft_eq]; omega
  · omega

theorem and_FF (b : Nat) (h : b < 256) : b &&& 0xFF = b := by
  have : b &&& 0xFF = b % 2 ^ 8 := Nat.and_pow_two_sub_one_eq_mod b 8
  rw [this]; omega

theorem digestBytes_length (s : Digest) : (digestBytes s).length = 20 := by
  simp [digestBytes, wordBytes]

theorem digestBytes_lt (s : Digest) : ∀ b ∈ digestBytes s, b < 256 := by
  intro b hb
  simp only [digestBytes, wordBytes, List.mem_append, List.mem_cons, List.mem_singleton,
    List.not_mem_nil, or_false] at hb
  rcases hb with ((((h | h | h | h) | (h | h | h | h)) | (h | h | h | h)) | (h | h | h | h)) |
    (h | h | h | h) <;> (subst h; exact Nat.mod_lt _ (by norm_num))

theorem hmacSha1_length (key msg : Bytes) : (hmacSha1 key msg).length = 20 :=
  digestBytes_length _

theorem hmacSha1_lt (key msg : Bytes) : ∀ b ∈ hmacSha1 key msg, b < 256 :=
  digestBytes_lt _

/-! ## The five-character code -/

theorem chars_length : chars.length = 26 := by decide

theorem chars_getD_ascii : ∀ i : Fin 26, chars.getD i.val 0 < 0x80 := by decide

theorem chars_indexOf_getD : ∀ i : Fin 26, chars.indexOf (chars.getD i.val 0) = i.val := by decide

theorem chars_getD_mem (i : Nat) (h : i < 26) : chars.getD i 0 ∈ chars := by
  rw [List.getD_eq_getElem _ _ (by rw [chars_length]; exact h)]
  exact List.getElem_mem _

theorem codeLoop_succ (n code : Nat) (acc : Bytes) :
    codeLoop (n + 1) code acc = codeLoop n (code / 26) (acc ++ [chars.getD (code % 26) 0]) := by
  have hlt : code % 26 < 26 := Nat.mod_lt _ (by norm_num)
  have hc := chars_getD_ascii ⟨code % 26, hlt⟩
  simp only at hc
  rw [codeLoop, chars_length, index_eq chars _ (by rw [chars_length]; exact hlt)]
  simp only [bind, Except.bind, stringOfByte, hc, if_true]

theorem codeLoop_five (v : Nat) :
    codeLoop 5 v [] = .ok
      [chars.getD (v % 26) 0, chars.getD (v / 26 % 26) 0, chars.getD (v / 26 / 26 % 26) 0,
        chars.getD (v / 26 / 26 / 26 % 26) 0, chars.getD (v / 26 / 26 / 26 / 26 % 26) 0] := by
  rw [codeLoop_succ, codeLoop_succ, codeLoop_succ, codeLoop_succ, codeLoop_succ]
  rfl

/-- C4: for a 20-byte digest the truncation offset `digest[19] & 0x0F` is at most 15, the
four bytes read at `offset .. offset+3` lie inside the digest, so the truncation does not
panic, and the value `(digest[offset]&0x7F)<<24 | digest[offset+1]<<16 |
digest[offset+2]<<8 | digest[offset+3]` it assembles is below `2^31`. -/
theorem truncate_in_range (digest : Bytes) (hlen : digest.length = 20)
    (hb : ∀ b ∈ digest, b < 256) :
    (digest.getD 19 0 &&& 0x0F) ≤ 15 ∧
    (digest.getD 19 0 &&& 0x0F) + 3 < digest.length ∧
    truncate digest = .ok
      ((digest.getD (digest.getD 19 0 &&& 0x0F) 0 &&& 0x7F) <<< 24 |||
        digest.getD ((digest.getD 19 0 &&& 0x0F) + 1) 0 <<< 16 |||
        digest.getD ((digest.getD 19 0 &&& 0x0F) + 2) 0 <<< 8 |||
        digest.getD ((digest.getD 19 0 &&& 0x0F) + 3) 0) ∧
    (digest.getD (digest.getD 19 0 &&& 0x0F) 0 &&& 0x7F) <<< 24 |||
        digest.getD ((digest.getD 19 0 &&& 0x0F) + 1) 0 <<< 16 |||
        digest.getD ((digest.getD 19 0 &&& 0x0F) + 2) 0 <<< 8 |||
        digest.getD ((digest.getD 19 0 &&& 0x0F) + 3) 0 < 2 ^ 31 := by
  have hs : digest.getD 19 0 &&& 0x0F ≤ 15 := Nat.and_le_right
  have key := truncate_eq digest hlen
  have hv := truncate_value_lt (digest.getD (digest.getD 19 0 &&& 0xF) 0)
    (digest.getD ((digest.getD 19 0 &&& 0xF) + 1) 0)
    (digest.getD ((digest.getD 19 0 &&& 0xF) + 2) 0)
    (digest.getD ((digest.getD 19 0 &&& 0xF) + 3) 0)
  rw [and_FF _ (getD_lt digest hb _), and_FF _ (getD_lt digest hb _),
    and_FF _ (getD_lt digest hb _)] at key hv
  exact ⟨hs, by omega, key, hv⟩

/-- Witness of C4 at the digest whose bytes are `0, 1, ..., 19`. -/
theorem truncate_in_range_witness :
    (List.range 20).length = 20 ∧ (∀ b ∈ List.range 20, b < 256) ∧
    truncate (List.range 20) = .ok 0x03040506 :=
  ⟨by decide, by decide,
    (truncate_in_range (List.range 20) (by decide) (by decide)).2.2.1.trans (by rfl)⟩

/-- C3: the `i`-th character of the code of a truncated value `v` is the symbol of `chars`
at index `(v / 26^i) mod 26`, the first character being the one of `v mod 26`, and the
code read as a base-26 number with its first character least significant is `v mod 26^5`. -/
theorem code_digits_low_order_first (v : Nat) :
    ∃ code, codeLoop 5 v [] = .ok code ∧ code.length = 5 ∧
      (∀ i : Fin 5, code.get? i.val = chars.get? (v / 26 ^ i.val % 26)) ∧
      code.head? = chars.get? (v % 26) ∧
      base26Value code = v % 26 ^ 5 := by
  have hget : ∀ k, k < 26 → chars.get? k = some (chars.getD k 0) := by
    intro k hk
    rw [List.get?_eq_get (by rw [chars_length]; exact hk),
      List.getD_eq_getElem _ _ (by rw [chars_length]; exact hk)]
    rfl
  have hidx : ∀ k, k < 26 → chars.indexOf (chars.getD k 0) = k :=
    fun k hk => chars_indexOf_getD ⟨k, hk⟩
  refine ⟨_, codeLoop_five v, rfl, ?_, ?_, ?_⟩
  · intro i
    rw [hget _ (Nat.mod_lt _ (by norm_num))]
    fin_cases i
    · simp
    · simp
    · simp [Nat.div_div_eq_div_mul]
    · simp [Nat.div_div_eq_div_mul]
    · simp [Nat.div_div_eq_div_mul]
  · rw [hget _ (Nat.mod_lt _ (by norm_num))]; rfl
  · simp only [base26Value]
    rw [hidx _ (Nat.mod_lt _ (by norm_num)), hidx _ (Nat.mod_lt _ (by norm_num)),
      hidx _ (Nat.mod_lt _ (by norm_num)), hidx _ (Nat.mod_lt _ (by norm_num)),
      hidx _ (Nat.mod_lt _ (by norm_num))]
    norm_num
    omega

theorem steamGuardCode_ok (now : Int) (sharedSecret key : Bytes)
    (hkey : DecodeString sharedSecret = some key) :
    ∃ v, GenerateSteamGuardCode now sharedSecret = .ok
      [chars.getD (v % 26) 0, chars.getD (v / 26 % 26) 0, chars.getD (v / 26 / 26 % 26) 0,
        chars.getD (v / 26 / 26 / 26 % 26) 0, chars.getD (v / 26 / 26 / 26 / 26 % 26) 0] := by
  obtain ⟨v, hv⟩ : ∃ v, truncate (hmacSha1 key (timeBytesOf (Int.tdiv now 30))) = .ok v :=
    ⟨_, truncate_eq _ (hmacSha1_length _ _)⟩
  refine ⟨v, ?_⟩
  unfold GenerateSteamGuardCode
  rw [hkey]
  simp only [bind, Except.bind, pure, Except.pure, hv]
  exact codeLoop_five v

/-- C1: for a shared secret that decodes as base64 and any clock reading,
`GenerateSteamGuardCode` returns a string of exactly five characters, each one of the 26
symbols of `23456789BCDFGHJKMNPQRTVWXY`. -/
theorem steamGuardCode_shape (now : Int) (sharedSecret key : Bytes)
    (hkey : DecodeString sharedSecret = some key) :
    ∃ code, GenerateSteamGuardCode now sharedSecret = .ok code ∧ code.length = 5 ∧
      (∀ c ∈ code, c ∈ ascii "23456789BCDFGHJKMNPQRTVWXY") ∧
      (ascii "23456789BCDFGHJKMNPQRTVWXY").length = 26 := by
  obtain ⟨v, hv⟩ := steamGuardCode_ok now sharedSecret key hkey
  refine ⟨_, hv, rfl, ?_, by decide⟩
  intro c hc
  simp only [List.mem_cons, List.mem_singleton, List.not_mem_nil, or_false] at hc
  have hm : ∀ k, chars.getD (k % 26) 0 ∈ chars :=
    fun k => chars_getD_mem _ (Nat.mod_lt _ (by norm_num))
  rcases hc with h | h | h | h | h <;> (subst h; exact hm _)

/-- Witness of C1 at the secret `AAAA` (three zero bytes) and the clock reading 0. -/
theorem steamGuardCode_shape_witness :
    DecodeString (ascii "AAAA") = some [0, 0, 0] ∧
    ∃ code, GenerateSteamGuardCode 0 (ascii "AAAA") = .ok code ∧ code.length = 5 ∧
      (∀ c ∈ code, c ∈ ascii "23456789BCDFGHJKMNPQRTVWXY") ∧
      (ascii "23456789BCDFGHJKMNPQRTVWXY").length = 26 :=
  ⟨by decide, steamGuardCode_shape 0 (ascii "AAAA") [0, 0, 0] (by decide)⟩

/-! ## Failure, the time bytes and the confirmation key -/

theorem land_255 (x : Int) : Int.land x 255 = andFF x := by
  unfold andFF
  cases x with
  | ofNat n =>
    show ((Nat.land n 255 : Nat) : Int) = _
    have : Nat.land n 255 = n % 256 := Nat.and_pow_two_sub_one_eq_mod n 8
    rw [this]; rfl
  | negSucc m =>
    show ((Nat.ldiff 255 m : Nat) : Int) = _
    have h : Nat.ldiff 255 m = 255 - m % 256 := by
      apply Nat.eq_of_testBit_eq
      intro i
      rw [Nat.testBit_ldiff]
      have h2 : 255 - m % 256 = 2 ^ 8 - (m % 2 ^ 8 + 1) := by omega
      rw [h2, Nat.testBit_two_pow_sub_succ (Nat.mod_lt _ (by norm_num))]
      have : (255 : Nat) = 2 ^ 8 - 1 := by norm_num
      rw [this, Nat.testBit_two_pow_sub_one, Nat.testBit_mod_two_pow]
      by_cases hi : i < 8 <;> simp [hi]
    rw [h, Int.negSucc_emod _ (by norm_num)]
    omega

theorem shiftRight_eight (x : Int) : x >>> (8 : Nat) = x / 256 := by
  rw [Int.shiftRight_eq_div_pow]; norm_num

theorem timeBytesOf_eq (t : Int) : timeBytesOf t = bigEndian8 (t % 2 ^ 64).toNat := by
  have h : ∀ x : Int, byte (andFF x) = (x % 256).toNat := by
    intro x; unfold byte andFF; congr 1; omega
  simp only [timeBytesOf, fillTimeBytes, h, List.replicate,
    List.set_cons_succ, List.set_cons_zero, bigEndian8]
  simp only [List.range, List.range.loop, List.map]
  norm_num
  simp only [shiftRight_eight]
  refine ⟨?_, ?_, ?_, ?_, ?_, ?_, ?_, ?_⟩ <;> omega


theorem tdiv_thirty (t : Int) :
    Int.tdiv t 30 = if 0 ≤ t then ⌊(t : ℚ) / 30⌋ else -⌊((-t : Int) : ℚ) / 30⌋ := by
  have h1 : ⌊(t : ℚ) / 30⌋ = t / 30 := by
    have := Rat.floor_intCast_div_natCast t 30
    simpa using this
  have h2 : ⌊((-t : Int) : ℚ) / 30⌋ = -t / 30 := by
    have := Rat.floor_intCast_div_natCast (-t) 30
    simpa using this
  rw [h1, h2]
  split
  · rename_i h
    rw [Int.tdiv_eq_ediv h (by norm_num)]
  · rename_i h
    have hneg : t = -(-t) := by omega
    rw [hneg, Int.neg_tdiv, Int.tdiv_eq_ediv (by omega) (by norm_num)]
    simp

theorem steamGuardCode_unfold (now : Int) (sharedSecret : Bytes) :
    GenerateSteamGuardCode now sharedSecret =
      (match DecodeString sharedSecret with
      | none => .error (Failure.error "failed to decode shared secret")
      | some key =>
        (truncate (hmacSha1 key (counterBytes now))).bind (fun code => codeLoop 5 code [])) := by
  unfold GenerateSteamGuardCode counterBytes
  cases DecodeString sharedSecret <;> rfl

/-- C2: `GenerateSteamGuardCode` and the confirmation-key function return an error exactly
when the secret does not decode as standard base64, as `not-base64!!` does not, and for
every secret that decodes (the empty one included), every tag and every time they return
a result and no error. -/
theorem fails_only_on_bad_base64 (now time : Int) (secret tag : Bytes) :
    ((∃ msg, GenerateSteamGuardCode now secret = .error (Failure.error msg)) ↔
      DecodeString secret = none) ∧
    ((∃ code, GenerateSteamGuardCode now secret = .ok code) ↔
      (DecodeString secret).isSome = true) ∧
    ((∃ msg, GenerateConfirmationKey secret tag time = .error (Failure.error msg)) ↔
      DecodeString secret = none) ∧
    ((∃ key, GenerateConfirmationKey secret tag time = .ok key) ↔
      (DecodeString secret).isSome = true) ∧
    DecodeString (ascii "not-base64!!") = none ∧
    (DecodeString (ascii "")).isSome = true ∧
    (∃ key, GenerateConfirmationKey (ascii "") (ascii "") time = .ok key) := by
  have hconf : ∀ s : Bytes, GenerateConfirmationKey s tag time =
      (match DecodeString s with
      | none => .error (Failure.error "failed to decode identity secret")
      | some key => .ok (EncodeToString (hmacSha1 key (timeBytesOf time ++ tag)))) := by
    intro s
    unfold GenerateConfirmationKey
    cases DecodeString s <;> rfl
  have hempty : DecodeString (ascii "") = some [] := by decide
  refine ⟨?_, ?_, ?_, ?_, by decide, by decide, ?_⟩
  · cases hd : DecodeString secret with
    | none =>
      refine ⟨fun _ => rfl, fun _ => ⟨"failed to decode shared secret", ?_⟩⟩
      rw [steamGuardCode_unfold, hd]
    | some key =>
      obtain ⟨v, hc⟩ := steamGuardCode_ok now secret key hd
      simp [hc]
  · cases hd : DecodeString secret with
    | none =>
      rw [steamGuardCode_unfold, hd]
      simp
    | some key =>
      obtain ⟨v, hc⟩ := steamGuardCode_ok now secret key hd
      simp [hc]
  · rw [hconf]
    cases hd : DecodeString secret <;> simp
  · rw [hconf]
    cases hd : DecodeString secret <;> simp
  · unfold GenerateConfirmationKey
    rw [hempty]
    exact ⟨_, rfl⟩

/-- C5: for a clock reading `t` of the `int64` range that is not negative, the message fed
to the HMAC is the 8-byte big-endian encoding of `counter = floor(t / 30)`; so two such
readings in the same 30-second window, that is with equal `floor(t / 30)`, give the same
message and, with the same secret, the same code. -/
theorem counter_message (t t' : Int) (secret : Bytes) (h0 : 0 ≤ t) (h63 : t < 2 ^ 63)
    (h0' : 0 ≤ t') (hwin : ⌊(t : ℚ) / 30⌋ = ⌊(t' : ℚ) / 30⌋) :
    counterBytes t = bigEndian8 (⌊(t : ℚ) / 30⌋).toNat ∧
    GenerateSteamGuardCode t secret =
      (match DecodeString secret with
      | none => .error (Failure.error "failed to decode shared secret")
      | some key =>
        (truncate (hmacSha1 key (bigEndian8 (⌊(t : ℚ) / 30⌋).toNat))).bind
          (fun code => codeLoop 5 code [])) ∧
    counterBytes t = counterBytes t' ∧
    GenerateSteamGuardCode t secret = GenerateSteamGuardCode t' secret := by
  have hf : Int.tdiv t 30 = ⌊(t : ℚ) / 30⌋ := by
    rw [tdiv_thirty, if_pos h0]
  have hf' : Int.tdiv t' 30 = ⌊(t' : ℚ) / 30⌋ := by
    rw [tdiv_thirty, if_pos h0']
  have hq : Int.tdiv t 30 = t / 30 := Int.tdiv_eq_ediv h0 (by norm_num)
  have hb : counterBytes t = bigEndian8 (⌊(t : ℚ) / 30⌋).toNat := by
    unfold counterBytes
    rw [timeBytesOf_eq, ← hf, hq]
    congr 1
    omega
  have hm : counterBytes t = counterBytes t' := by
    unfold counterBytes
    rw [hf, hf', hwin]
  refine ⟨hb, ?_, hm, ?_⟩
  · rw [steamGuardCode_unfold, hb]
  · rw [steamGuardCode_unfold, steamGuardCode_unfold, hm]

/-- Witness of C5 at the clock readings 60 and 89, both in the window of counter 2. -/
theorem counter_message_witness :
    (0 : Int) ≤ 60 ∧ (60 : Int) < 2 ^ 63 ∧ (0 : Int) ≤ 89 ∧
    ⌊((60 : Int) : ℚ) / 30⌋ = ⌊((89 : Int) : ℚ) / 30⌋ ∧
    counterBytes 60 = [0, 0, 0, 0, 0, 0, 0, 2] ∧
    GenerateSteamGuardCode 60 (ascii "AAAA") = GenerateSteamGuardCode 89 (ascii "AAAA") :=
  have hw : ⌊((60 : Int) : ℚ) / 30⌋ = ⌊((89 : Int) : ℚ) / 30⌋ := by
    have e1 := tdiv_thirty 60
    have e2 := tdiv_thirty 89
    rw [if_pos (by decide)] at e1 e2
    rw [← e1, ← e2]
    decide
  ⟨by decide, by decide, by decide, hw, by decide,
    (counter_message 60 89 (ascii "AAAA") (by decide) (by decide) (by decide) hw).2.2.2⟩

/-- C6: for an identity secret that decodes as base64, the confirmation key is the standard
base64 encoding, 28 characters long, of the whole 20-byte HMAC-SHA1 digest computed with the
decoded secret as key over the 8-byte big-endian encoding of the time itself (not divided
by 30) followed by the bytes of the tag. -/
theorem confirmationKey_value (identitySecret key tag : Bytes) (time : Int)
    (hkey : DecodeString identitySecret = some key) :
    GenerateConfirmationKey identitySecret tag time =
      .ok (EncodeToString (hmacSha1 key (bigEndian8 (time % 2 ^ 64).toNat ++ tag))) ∧
    (bigEndian8 (time % 2 ^ 64).toNat).length = 8 ∧
    (hmacSha1 key (bigEndian8 (time % 2 ^ 64).toNat ++ tag)).length = 20 ∧
    (EncodeToString (hmacSha1 key (bigEndian8 (time % 2 ^ 64).toNat ++ tag))).length = 28 := by
  refine ⟨?_, by simp [bigEndian8], hmacSha1_length _ _, ?_⟩
  · unfold GenerateConfirmationKey
    rw [hkey, timeBytesOf_eq]
    rfl
  · simp [EncodeToString, hmacSha1, digestBytes, wordBytes, Encode]

set_option maxRecDepth 100000 in
/-- Witness of C6 at the secret of twenty zero bytes, the tag `conf` and the time
1000000000: the key is `8k3i7HtvxPAfSJnYZUQjsWN+Y64=`. -/
theorem confirmationKey_value_witness :
    DecodeString (ascii "AAAAAAAAAAAAAAAAAAAAAAAAAAA=") = some (List.replicate 20 0) ∧
    GenerateConfirmationKey (ascii "AAAAAAAAAAAAAAAAAAAAAAAAAAA=") (ascii "conf") 1000000000 =
      .ok (ascii "8k3i7HtvxPAfSJnYZUQjsWN+Y64=") :=
  ⟨by decide,
    (confirmationKey_value (ascii "AAAAAAAAAAAAAAAAAAAAAAAAAAA=") (List.replicate 20 0)
      (ascii "conf") 1000000000 (by decide)).1.trans (congrArg Except.ok (by decide))⟩

/-! ## The rate limiter -/

theorem NewRateLimiter_ok (r b : Int) (rl : RateLimiter) (h : NewRateLimiter r b = .ok rl) :
    rl.tokens = 0 ∧ rl.burst = b ∧ rl.requestsPerSecond = r ∧
      rl.ticker = Int.tdiv Second r ∧ 0 ≤ b := by
  unfold NewRateLimiter at h
  split at h
  · cases h
  · split at h
    · cases h
    · split at h
      · cases h
      · injection h with h
        subst h
        exact ⟨rfl, rfl, rfl, rfl, by omega⟩

theorem tick_burst (s : RateLimiter) : (tick s).burst = s.burst := by
  unfold tick; split <;> rfl

theorem tick_tokens (s : RateLimiter) :
    (tick s).tokens = if (s.tokens : Int) < s.burst then s.tokens + 1 else s.tokens := by
  unfold tick; split <;> rfl

theorem Wait_some (s s' : RateLimiter) (h : Wait s = some s') :
    s'.burst = s.burst ∧ s.tokens = s'.tokens + 1 := by
  unfold Wait at h
  split at h
  · cases h
  · rename_i n hn
    injection h with h
    subst h
    exact ⟨rfl, hn⟩

theorem step_some (s s' : RateLimiter) (e : Event) (h : step s e = some s')
    (hinv : (s.tokens : Int) ≤ s.burst) :
    s'.burst = s.burst ∧ (s'.tokens : Int) ≤ s'.burst := by
  cases e with
  | tick =>
    simp only [step, Option.some.injEq] at h
    subst h
    refine ⟨tick_burst s, ?_⟩
    rw [tick_burst, tick_tokens]
    split <;> omega
  | wait =>
    obtain ⟨hb, ht⟩ := Wait_some s s' h
    refine ⟨hb, ?_⟩
    rw [hb]; omega

theorem run_invariant (trace : List Event) :
    ∀ s s' : RateLimiter, run s trace = some s' → (s.tokens : Int) ≤ s.burst →
      s'.burst = s.burst ∧ (s'.tokens : Int) ≤ s'.burst := by
  induction trace with
  | nil =>
    intro s s' h hinv
    simp only [run, Option.some.injEq] at h
    subst h
    exact ⟨rfl, hinv⟩
  | cons e es ih =>
    intro s s' h hinv
    simp only [run] at h
    cases hs : step s e with
    | none => rw [hs] at h; cases h
    | some m =>
      rw [hs] at h
      obtain ⟨hb, hi⟩ := step_some s m e hs hinv
      obtain ⟨hb', hi'⟩ := ih m s' h hi
      exact ⟨hb'.trans hb, hi'⟩

theorem run_waits (k : Nat) :
    ∀ s s' : RateLimiter, run s (List.replicate k Event.wait) = some s' →
      s.tokens = s'.tokens + k := by
  induction k with
  | zero =>
    intro s s' h
    simp only [List.replicate, run, Option.some.injEq] at h
    subst h; rfl
  | succ k ih =>
    intro s s' h
    simp only [List.replicate, run, step] at h
    cases hs : Wait s with
    | none => rw [hs] at h; cases h
    | some m =>
      rw [hs] at h
      have h1 := (Wait_some s m hs).2
      have h2 := ih m s' h
      omega

theorem run_ticks (n : Nat) :
    ∀ s : RateLimiter, (s.tokens : Int) ≤ s.burst →
      ∃ s', run s (List.replicate n Event.tick) = some s' ∧ s'.burst = s.burst ∧
        (s'.tokens : Int) = min ((s.tokens : Int) + n) s.burst := by
  induction n with
  | zero =>
    intro s hinv
    exact ⟨s, rfl, rfl, by simp [hinv]⟩
  | succ n ih =>
    intro s hinv
    have hb := tick_burst s
    have ht := tick_tokens s
    have hinv' : ((tick s).tokens : Int) ≤ (tick s).burst := by
      rw [hb, ht]; split <;> omega
    obtain ⟨s', hrun, hb', ht'⟩ := ih (tick s) hinv'
    refine ⟨s', ?_, hb'.trans hb, ?_⟩
    · simp only [List.replicate, run, step, Option.bind]
      exact hrun
    · rw [ht', hb, ht]
      split <;> rename_i hlt
      · push_cast; congr 1; omega
      · push_cast
        rw [min_eq_right (by omega), min_eq_right (by omega)]

theorem run_counts (trace : List Event) :
    ∀ s s' : RateLimiter, run s trace = some s' →
      s'.tokens + trace.count Event.wait ≤ s.tokens + trace.count Event.tick := by
  induction trace with
  | nil =>
    intro s s' h
    simp only [run, Option.some.injEq] at h
    subst h; simp
  | cons e es ih =>
    intro s s' h
    simp only [run] at h
    cases hs : step s e with
    | none => rw [hs] at h; cases h
    | some m =>
      rw [hs] at h
      have h2 := ih m s' h
      cases e with
      | tick =>
        simp only [step, Option.some.injEq] at hs
        subst hs
        have ht := tick_tokens s
        simp only [List.count_cons, beq_self_eq_true, if_true,
          show (Event.tick == Event.wait) = false from rfl, Bool.false_eq_true, if_false]
        split at ht <;> omega
      | wait =>
        have h1 := (Wait_some s m hs).2
        simp only [List.count_cons, beq_self_eq_true, if_true,
          show (Event.wait == Event.tick) = false from rfl, Bool.false_eq_true, if_false]
        omega

/-- C8: in every state reached from `NewRateLimiter r b`, `b ≥ 1`, by an interleaving of
refill ticks and completed `Wait` calls the permit count lies between 0 and `b`; so when
`k` `Wait` calls complete from such a state with no tick in between, `k ≤ b`, once `b` of
them have completed a further `Wait` stays blocked, and `b + 1` of them never complete
without a tick. -/
theorem permits_bounded (r b : Int) (rl s s' : RateLimiter) (trace : List Event) (k : Nat)
    (hb : 1 ≤ b) (hnew : NewRateLimiter r b = .ok rl) (hrun : run rl trace = some s)
    (hwaits : run s (List.replicate k Event.wait) = some s') :
    0 ≤ (s.tokens : Int) ∧ (s.tokens : Int) ≤ b ∧ s.burst = b ∧ (k : Int) ≤ b ∧
      ((k : Int) < b ∨ Wait s' = none) ∧
      run s (List.replicate (b.toNat + 1) Event.wait) = none := by
  obtain ⟨h0, hbu, -, -, -⟩ := NewRateLimiter_ok r b rl hnew
  obtain ⟨hsb, hst⟩ := run_invariant trace rl s hrun (by rw [h0, hbu]; omega)
  rw [hsb, hbu] at hst
  have hk := run_waits k s s' hwaits
  have hmore : run s (List.replicate (b.toNat + 1) Event.wait) = none := by
    cases hr : run s (List.replicate (b.toNat + 1) Event.wait) with
    | none => rfl
    | some m =>
      have := run_waits _ s m hr
      omega
  refine ⟨by omega, hst, hsb.trans hbu, by omega, ?_, hmore⟩
  by_cases hkb : (k : Int) < b
  · exact Or.inl hkb
  · have hz : s'.tokens = 0 := by omega
    exact Or.inr (by simp only [Wait, hz])

/-- Witness of C8: the limiter of `init`, three ticks, then two completed `Wait` calls. -/
theorem permits_bounded_witness :
    (1 : Int) ≤ 5 ∧ NewRateLimiter 1 5 = .ok ⟨0, 1000000000, 1, 5⟩ ∧
    run ⟨0, 1000000000, 1, 5⟩ [Event.tick, Event.tick, Event.tick] =
      some ⟨3, 1000000000, 1, 5⟩ ∧
    run ⟨3, 1000000000, 1, 5⟩ (List.replicate 2 Event.wait) = some ⟨1, 1000000000, 1, 5⟩ ∧
    ((3 : Nat) : Int) ≤ 5 ∧ ((2 : Nat) : Int) ≤ 5 :=
  have h := permits_bounded 1 5 ⟨0, 1000000000, 1, 5⟩ ⟨3, 1000000000, 1, 5⟩
    ⟨1, 1000000000, 1, 5⟩ [Event.tick, Event.tick, Event.tick] 2 (by decide) rfl
    (by decide) (by decide)
  ⟨by decide, rfl, by decide, by decide, h.2.1, h.2.2.2.1⟩

/-- C9: a new limiter holds no permit; a tick adds exactly one permit when the pool is
below `burst` and nothing when it is full; so after `n` ticks and no `Wait` the pool holds
`min n burst` permits. -/
theorem refill_saturates (r b : Int) (rl s : RateLimiter) (n : Nat)
    (hnew : NewRateLimiter r b = .ok rl) :
    rl.tokens = 0 ∧ rl.burst = b ∧
    (tick s).tokens = (if (s.tokens : Int) < s.burst then s.tokens + 1 else s.tokens) ∧
    ∃ sn, run rl (List.replicate n Event.tick) = some sn ∧
      (sn.tokens : Int) = min (n : Int) b := by
  obtain ⟨h0, hbu, -, -, hb0⟩ := NewRateLimiter_ok r b rl hnew
  obtain ⟨sn, hrun, -, ht⟩ := run_ticks n rl (by rw [h0, hbu]; omega)
  refine ⟨h0, hbu, tick_tokens s, sn, hrun, ?_⟩
  rw [ht, h0, hbu]
  simp

/-- Witness of C9: the limiter of `init` holds 5 permits after 8 ticks. -/
theorem refill_saturates_witness :
    NewRateLimiter 1 5 = .ok ⟨0, 1000000000, 1, 5⟩ ∧
    run ⟨0, 1000000000, 1, 5⟩ (List.replicate 8 Event.tick) = some ⟨5, 1000000000, 1, 5⟩ ∧
    ∃ sn, run ⟨0, 1000000000, 1, 5⟩ (List.replicate 8 Event.tick) = some sn ∧
      (sn.tokens : Int) = min ((8 : Nat) : Int) 5 :=
  ⟨rfl, by decide,
    (refill_saturates 1 5 ⟨0, 1000000000, 1, 5⟩ ⟨0, 1000000000, 1, 5⟩ 8 rfl).2.2.2⟩

/-- C10, as stated, fails: the limiter built by `init` with `requestsPerSecond=1` and
`burst=5` starts with an empty channel, so right after construction not even one `Wait`
completes before a tick, let alone five. -/
theorem cold_start_counterexample :
    rateLimiter = .ok ⟨0, 1000000000, 1, 5⟩ ∧
    Wait ⟨0, 1000000000, 1, 5⟩ = none ∧
    run ⟨0, 1000000000, 1, 5⟩ (List.replicate 5 Event.wait) = none :=
  ⟨rfl, by decide, by decide⟩

/-- C10, amended: the limiter built with `requestsPerSecond=1`, `burst=5` ticks once per
second and starts empty, so no `Wait` completes before the first tick and in every
interleaving the completed `Wait` calls number at most the ticks so far; once five ticks
have occurred with no `Wait`, five `Wait` calls complete with no further tick, a sixth
does not, and it completes after one more tick. -/
theorem cold_start_then_burst (rl s : RateLimiter) (trace : List Event)
    (hnew : NewRateLimiter 1 5 = .ok rl) (hrun : run rl trace = some s) :
    rl.ticker = 1000000000 ∧ Wait rl = none ∧
    trace.count Event.wait ≤ trace.count Event.tick ∧
    (∃ s5, run rl (List.replicate 5 Event.tick ++ List.replicate 5 Event.wait) = some s5 ∧
      Wait s5 = none ∧ (∃ s6, run s5 [Event.tick, Event.wait] = some s6)) ∧
    run rl (List.replicate 5 Event.tick ++ List.replicate 6 Event.wait) = none := by
  have hrl : rl = ⟨0, 1000000000, 1, 5⟩ := by
    have h : NewRateLimiter 1 5 = .ok ⟨0, 1000000000, 1, 5⟩ := rfl
    rw [h] at hnew
    injection hnew with hnew
    exact hnew.symm
  subst hrl
  have hc := run_counts trace _ s hrun
  refine ⟨rfl, by decide, by simp only at hc; omega, ⟨⟨0, 1000000000, 1, 5⟩, by decide, by decide,
    ⟨0, 1000000000, 1, 5⟩, by decide⟩, by decide⟩

/-- Witness of amended C10: one tick and then one completed `Wait`. -/
theorem cold_start_then_burst_witness :
    NewRateLimiter 1 5 = .ok ⟨0, 1000000000, 1, 5⟩ ∧
    run ⟨0, 1000000000, 1, 5⟩ [Event.tick, Event.wait] = some ⟨0, 1000000000, 1, 5⟩ ∧
    Wait ⟨0, 1000000000, 1, 5⟩ = none ∧
    run ⟨0, 1000000000, 1, 5⟩ (List.replicate 5 Event.tick ++ List.replicate 6 Event.wait) =
      none :=
  have h := cold_start_then_burst ⟨0, 1000000000, 1, 5⟩ ⟨0, 1000000000, 1, 5⟩
    [Event.tick, Event.wait] rfl (by decide)
  ⟨rfl, by decide, h.2.1, h.2.2.2.2⟩

/-! ## Base64 digits determine the bytes -/

theorem decodeMap_encodeStd : ∀ i : Fin 64, decodeMap (encodeStd.getD i.val 0) = i.val := by
  decide

theorem encodeStd_inj (x y : Nat) (h : encodeStd.getD (x &&& 0x3F) 0 = encodeStd.getD (y &&& 0x3F) 0) :
    x % 64 = y % 64 := by
  have hx : x &&& 0x3F = x % 2 ^ 6 := Nat.and_pow_two_sub_one_eq_mod x 6
  have hy : y &&& 0x3F = y % 2 ^ 6 := Nat.and_pow_two_sub_one_eq_mod y 6
  rw [hx, hy] at h
  have h1 := decodeMap_encodeStd ⟨x % 2 ^ 6, Nat.mod_lt _ (by norm_num)⟩
  have h2 := decodeMap_encodeStd ⟨y % 2 ^ 6, Nat.mod_lt _ (by norm_num)⟩
  simp only at h1 h2
  rw [h] at h1
  have := h1.symm.trans h2
  simpa using this

theorem or_shift_one (a : Nat) : a <<< 16 = a * 65536 := by
  rw [Nat.shiftLeft_eq]

theorem or_shift_two (a b : Nat) (hb : b < 256) : a <<< 16 ||| b <<< 8 = a * 65536 + b * 256 := by
  rw [Nat.shiftLeft_eq, Nat.shiftLeft_eq]
  have h := Nat.mul_add_lt_is_or (show b * 2 ^ 8 < 2 ^ 16 by omega) a
  rw [← Nat.mul_comm (2 ^ 16) a, ← h]
  norm_num

theorem or_shift_three (a b c : Nat) (hb : b < 256) (hc : c < 256) :
    a <<< 16 ||| b <<< 8 ||| c = a * 65536 + b * 256 + c := by
  rw [or_shift_two a b hb]
  have h := Nat.mul_add_lt_is_or (show c < 2 ^ 8 by omega) (a * 256 + b)
  have e : a * 65536 + b * 256 = 2 ^ 8 * (a * 256 + b) := by norm_num; omega
  rw [e, ← h]

theorem Encode_inj : ∀ (n : Nat) (l l' : Bytes), l.length ≤ n → l.length = l'.length →
    (∀ b ∈ l, b < 256) → (∀ b ∈ l', b < 256) → Encode l = Encode l' → l = l' := by
  intro n
  induction n using Nat.strong_induction_on with
  | _ n ih =>
    intro l l' hn hlen hb hb' he
    rcases l with _ | ⟨a, _ | ⟨b, _ | ⟨c, rest⟩⟩⟩ <;>
      rcases l' with _ | ⟨a', _ | ⟨b', _ | ⟨c', rest'⟩⟩⟩ <;>
      simp only [List.length_cons, List.length_nil] at hlen <;> try omega
    · rfl
    · have ha : a < 256 := hb a (by simp)
      have ha' : a' < 256 := hb' a' (by simp)
      simp only [Encode, List.cons.injEq, and_true, or_shift_one] at he
      have h1 := encodeStd_inj _ _ he.1
      have h2 := encodeStd_inj _ _ he.2
      simp only [Nat.shiftRight_eq_div_pow] at h1 h2
      have : a = a' := by omega
      rw [this]
    · have ha : a < 256 := hb a (by simp)
      have ha' : a' < 256 := hb' a' (by simp)
      have hb1 : b < 256 := hb b (by simp)
      have hb1' : b' < 256 := hb' b' (by simp)
      simp only [Encode, List.cons.injEq, and_true, or_shift_two _ _ hb1,
        or_shift_two _ _ hb1'] at he
      have h1 := encodeStd_inj _ _ he.1
      have h2 := encodeStd_inj _ _ he.2.1
      have h3 := encodeStd_inj _ _ he.2.2
      simp only [Nat.shiftRight_eq_div_pow] at h1 h2 h3
      have e1 : a = a' := by omega
      have e2 : b = b' := by omega
      rw [e1, e2]
    · have ha : a < 256 := hb a (by simp)
      have ha' : a' < 256 := hb' a' (by simp)
      have hb1 : b < 256 := hb b (by simp)
      have hb1' : b' < 256 := hb' b' (by simp)
      have hc : c < 256 := hb c (by simp)
      have hc' : c' < 256 := hb' c' (by simp)
      simp only [Encode, List.cons.injEq, or_shift_three _ _ _ hb1 hc,
        or_shift_three _ _ _ hb1' hc'] at he
      obtain ⟨g1, g2, g3, g4, grest⟩ := he
      have h1 := encodeStd_inj _ _ g1
      have h2 := encodeStd_inj _ _ g2
      have h3 := encodeStd_inj _ _ g3
      have h4 := encodeStd_inj _ _ g4
      simp only [Nat.shiftRight_eq_div_pow] at h1 h2 h3
      have e1 : a = a' := by omega
      have e2 : b = b' := by omega
      have e3 : c = c' := by omega
      have hr : rest = rest' :=
        ih rest.length (by simp only [List.length_cons] at hn; omega) rest rest' (le_refl _)
          (by omega) (fun x hx => hb x (by simp [hx])) (fun x hx => hb' x (by simp [hx])) grest
      rw [e1, e2, e3, hr]

/-! ## The tag and the confirmation key -/

theorem confirmationKey_eq (identitySecret key tag : Bytes) (time : Int)
    (hkey : DecodeString identitySecret = some key) :
    GenerateConfirmationKey identitySecret tag time =
      .ok (EncodeToString (hmacSha1 key (bigEndian8 (time % 2 ^ 64).toNat ++ tag))) := by
  unfold GenerateConfirmationKey
  rw [hkey, timeBytesOf_eq]
  rfl

/-- For a secret that decodes, a time `t` and two different tags, the two signed messages
differ, and the two confirmation keys are equal exactly when HMAC-SHA1 gives these two
different messages the same digest. -/
theorem tag_changes_signed_message (secret key tag1 tag2 : Bytes) (t : Int)
    (hkey : DecodeString secret = some key) (hne : tag1 ≠ tag2) :
    bigEndian8 (t % 2 ^ 64).toNat ++ tag1 ≠ bigEndian8 (t % 2 ^ 64).toNat ++ tag2 ∧
    (GenerateConfirmationKey secret tag1 t = GenerateConfirmationKey secret tag2 t ↔
      hmacSha1 key (bigEndian8 (t % 2 ^ 64).toNat ++ tag1) =
        hmacSha1 key (bigEndian8 (t % 2 ^ 64).toNat ++ tag2)) := by
  refine ⟨fun h => hne (List.append_cancel_left h), ?_⟩
  rw [confirmationKey_eq secret key tag1 t hkey, confirmationKey_eq secret key tag2 t hkey]
  constructor
  · intro h
    injection h with h
    exact Encode_inj 20 _ _ (by rw [hmacSha1_length]) (by rw [hmacSha1_length, hmacSha1_length])
      (hmacSha1_lt _ _) (hmacSha1_lt _ _) h
  · intro h
    rw [h]

set_option maxRecDepth 100000 in
/-- With the secret `AAAA` and the time 0 the tags `conf` and `allow` give different
confirmation keys. -/
theorem confirmationKey_conf_allow :
    DecodeString (ascii "AAAA") = some [0, 0, 0] ∧ ascii "conf" ≠ ascii "allow" ∧
    GenerateConfirmationKey (ascii "AAAA") (ascii "conf") 0 ≠
      GenerateConfirmationKey (ascii "AAAA") (ascii "allow") 0 :=
  ⟨by decide, by decide,
    fun h => absurd ((tag_changes_signed_message (ascii "AAAA") [0, 0, 0] (ascii "conf")
      (ascii "allow") 0 (by decide) (by decide)).2.mp h) (by decide)⟩

/-! ## The limiter and the operations, the configuration, the ticker period -/

theorem loadLines_rateLimiter (lines : List Bytes) :
    ∀ g : Package, (loadLines lines g).1.rateLimiter = g.rateLimiter ∧
      (loadLines lines g).1.sent = g.sent := by
  induction lines with
  | nil => intro g; exact ⟨rfl, rfl⟩
  | cons text rest ih =>
    intro g
    unfold loadLines
    simp only
    split
    · exact ih g
    · split
      · split
        · split
          · rename_i n _
            exact ih _
          · exact ⟨rfl, rfl⟩
        · split
          · split
            · exact ih _
            · exact ⟨rfl, rfl⟩
          · exact ⟨rfl, rfl⟩
      · exact ⟨rfl, rfl⟩

/-- C12 evaluated: `LoadConfig` never assigns `rateLimiter`; on a file that sets
`rate_limit.requests_per_second` to 10 and `rate_limit.burst` to 20 it succeeds and stores
10 and 20 in `Config`, while the limiter the API calls use is still the one `init` built
with `NewRateLimiter(1, 5)`. -/
theorem loadConfig_leaves_limiter (file : Option (List Bytes)) (g : Package) :
    (LoadConfig file g).1.rateLimiter = g.rateLimiter ∧
    init = .ok ⟨⟨⟨0, 0⟩⟩, ⟨0, 1000000000, 1, 5⟩, []⟩ ∧
    LoadConfig
        (some [ascii "rate_limit.requests_per_second: 10", ascii "rate_limit.burst: 20"])
        ⟨⟨⟨0, 0⟩⟩, ⟨0, 1000000000, 1, 5⟩, []⟩ =
      (⟨⟨⟨10, 20⟩⟩, ⟨0, 1000000000, 1, 5⟩, []⟩, none) ∧
    NewRateLimiter 10 20 = .ok ⟨0, 100000000, 10, 20⟩ := by
  refine ⟨?_, rfl, by decide, rfl⟩
  cases file with
  | none => rfl
  | some lines => exact (loadLines_rateLimiter lines g).1

/-- C11 evaluated: the five functions of `api.go` block in `rateLimiter.Wait()` when no
permit is there and take one permit before `http.Get`; `PerformLogin`, `Bot.Login` and the
`Bot` methods `AddFriend`, `RemoveFriend`, `AcceptFriendRequest`, `SendTradeOffer` and
`ListMarketItem` never block and leave the limiter as it is, and right after `init`, with
no permit in the pool, `AddFriend` calls the HTTP client while `GetPlayerSummaries` is
blocked. -/
theorem bot_operations_skip_the_limiter (b : Bot) (now : Int)
    (apiKey steamID username password : Bytes) (appID contextID : Int) (steamGuard : Option Guard)
    (offer : TradeOffer) (item : MarketItem) (g : Package) :
    (GetPlayerSummaries apiKey steamID g).map (fun g' => g'.rateLimiter) = Wait g.rateLimiter ∧
    (GetPlayerInventories apiKey steamID appID contextID g).map (fun g' => g'.rateLimiter) =
      Wait g.rateLimiter ∧
    (GetUserStatsForGame apiKey steamID appID g).map (fun g' => g'.rateLimiter) =
      Wait g.rateLimiter ∧
    (GetOwnedGames apiKey steamID g).map (fun g' => g'.rateLimiter) = Wait g.rateLimiter ∧
    (GetRecentlyPlayedGames apiKey steamID g).map (fun g' => g'.rateLimiter) =
      Wait g.rateLimiter ∧
    (PerformLogin now username password steamGuard apiKey g).map (fun g' => g'.rateLimiter) =
      some g.rateLimiter ∧
    PerformLogin now username password none apiKey g =
      some (send "POST" (ascii "https://steamcommunity.com/login/dologin") g) ∧
    (b.Login now username password g).map (fun g' => g'.rateLimiter) = some g.rateLimiter ∧
    b.AddFriend steamID g =
      some (send "POST" (ascii "https://steamcommunity.com/actions/AddFriendAjax") g) ∧
    b.RemoveFriend steamID g =
      some (send "POST" (ascii "https://steamcommunity.com/actions/RemoveFriendAjax") g) ∧
    b.AcceptFriendRequest steamID g =
      some (send "POST" (ascii "https://steamcommunity.com/actions/AcceptFriendRequest") g) ∧
    b.SendTradeOffer offer g =
      some (send "POST" (ascii "https://steamcommunity.com/tradeoffer/new/send") g) ∧
    b.ListMarketItem item g =
      some (send "POST" (ascii "https://steamcommunity.com/market/sellitem/") g) ∧
    (send "POST" (ascii "https://steamcommunity.com/actions/AddFriendAjax") g).rateLimiter =
      g.rateLimiter ∧
    init = .ok ⟨⟨⟨0, 0⟩⟩, ⟨0, 1000000000, 1, 5⟩, []⟩ ∧
    GetPlayerSummaries apiKey steamID ⟨⟨⟨0, 0⟩⟩, ⟨0, 1000000000, 1, 5⟩, []⟩ = none ∧
    b.AddFriend steamID ⟨⟨⟨0, 0⟩⟩, ⟨0, 1000000000, 1, 5⟩, []⟩ =
      some ⟨⟨⟨0, 0⟩⟩, ⟨0, 1000000000, 1, 5⟩,
        [⟨"POST", ascii "https://steamcommunity.com/actions/AddFriendAjax"⟩]⟩ := by
  have hacq : ∀ (m : String) (u : Bytes),
      ((acquire g).map (send m u)).map (fun g' => g'.rateLimiter) = Wait g.rateLimiter := by
    intro m u
    unfold acquire
    cases Wait g.rateLimiter <;> rfl
  have hlogin : ∀ (sg : Option Guard) (k : Bytes),
      (PerformLogin now username password sg k g).map (fun g' => g'.rateLimiter) =
        some g.rateLimiter := by
    intro sg k
    unfold PerformLogin
    cases sg with
    | none => rfl
    | some guard =>
      simp only
      cases GenerateSteamGuardCode now guard.SharedSecret <;> rfl
  exact ⟨hacq _ _, hacq _ _, hacq _ _, hacq _ _, hacq _ _, hlogin _ _, rfl,
    hlogin b.SteamGuard b.APIKey, rfl, rfl, rfl, rfl, rfl, rfl, rfl, rfl, rfl⟩

/-- C13, as stated, fails: with `requestsPerSecond = 3` the ticker period is 333333333 ns
and three periods are not a second, and with `requestsPerSecond = 1000000001` the period
is 0 and `time.NewTicker` panics. -/
theorem ticker_period_counterexample :
    NewRateLimiter 3 1 = .ok ⟨0, 333333333, 3, 1⟩ ∧
    (333333333 : Int) * 3 ≠ 1000000000 ∧
    NewRateLimiter 1000000001 1 = .error (.panic "non-positive interval for NewTicker") :=
  ⟨rfl, by decide, rfl⟩

/-- C13, amended: for `0 < r ≤ 10^9` and `b ≥ 1`, `NewRateLimiter r b` succeeds, the
limiter has capacity `b` and its ticker period is `10^9 / r` nanoseconds rounded down, at
least 1, so that `10^9 - r < period * r ≤ 10^9`, with equality exactly when `r` divides
`10^9`; for `r > 10^9` the period is 0 and `time.NewTicker` panics. -/
theorem ticker_period (r b : Int) (hr : 0 < r) (hb : 1 ≤ b) :
    if r ≤ 1000000000 then
      ∃ rl, NewRateLimiter r b = .ok rl ∧ rl.tokens = 0 ∧ rl.burst = b ∧
        rl.requestsPerSecond = r ∧ rl.ticker = 1000000000 / r ∧ 1 ≤ rl.ticker ∧
        rl.ticker * r ≤ 1000000000 ∧ 1000000000 < rl.ticker * r + r ∧
        (rl.ticker * r = 1000000000 ↔ r ∣ 1000000000)
    else NewRateLimiter r b = .error (.panic "non-positive interval for NewTicker") := by
  have ht : Int.tdiv Second r = 1000000000 / r := by
    unfold Second
    exact Int.tdiv_eq_ediv (by norm_num) (by omega)
  have hm := Int.emod_add_ediv 1000000000 r
  have hnn := Int.emod_nonneg 1000000000 (show r ≠ 0 by omega)
  have hlt := Int.emod_lt_of_pos 1000000000 hr
  split
  · rename_i hle
    have hq : 1 ≤ 1000000000 / r := Int.le_ediv_of_mul_le hr (by omega)
    have hnew : NewRateLimiter r b = .ok ⟨0, 1000000000 / r, r, b⟩ := by
      unfold NewRateLimiter
      rw [ht, if_neg (by omega), if_neg (by omega), if_neg (by omega)]
    refine ⟨_, hnew, rfl, rfl, rfl, rfl, hq, ?_, ?_, ?_⟩
    · show 1000000000 / r * r ≤ 1000000000
      rw [mul_comm]; omega
    · show 1000000000 < 1000000000 / r * r + r
      rw [mul_comm]; omega
    · show 1000000000 / r * r = 1000000000 ↔ r ∣ 1000000000
      rw [mul_comm, Int.dvd_iff_emod_eq_zero]
      constructor <;> intro h <;> omega
  · rename_i hgt
    have hq : 1000000000 / r = 0 := Int.ediv_eq_zero_of_lt (by norm_num) (by omega)
    unfold NewRateLimiter
    rw [ht, hq, if_neg (by omega), if_neg (by omega), if_pos (le_refl _)]

/-- Witness of amended C13 at `requestsPerSecond = 3`, `burst = 1`. -/
theorem ticker_period_witness :
    (0 : Int) < 3 ∧ (1 : Int) ≤ 1 ∧
    (if (3 : Int) ≤ 1000000000 then
      ∃ rl, NewRateLimiter 3 1 = .ok rl ∧ rl.tokens = 0 ∧ rl.burst = 1 ∧
        rl.requestsPerSecond = 3 ∧ rl.ticker = 1000000000 / 3 ∧ 1 ≤ rl.ticker ∧
        rl.ticker * 3 ≤ 1000000000 ∧ 1000000000 < rl.ticker * 3 + 3 ∧
        (rl.ticker * 3 = 1000000000 ↔ (3 : Int) ∣ 1000000000)
    else NewRateLimiter 3 1 = .error (.panic "non-positive interval for NewTicker")) :=
  ⟨by decide, by decide, ticker_period 3 1 (by decide) (by decide)⟩

theorem bigEndian8_inj (u v : Nat) (hu : u < 2 ^ 64) (hv : v < 2 ^ 64)
    (h : bigEndian8 u = bigEndian8 v) : u = v := by
  simp only [bigEndian8, List.range, List.range.loop, List.map, List.cons.injEq, and_true] at h
  norm_num at h
  omega

theorem timeBytesOf_length (t : Int) : (timeBytesOf t).length = 8 := by
  rw [timeBytesOf_eq]
  simp [bigEndian8]

theorem confirmationKey_unfold (identitySecret tag : Bytes) (time : Int) :
    GenerateConfirmationKey identitySecret tag time =
      (match DecodeString identitySecret with
      | none => .error (Failure.error "failed to decode identity secret")
      | some key => .ok (EncodeToString (hmacSha1 key (timeBytesOf time ++ tag)))) := by
  unfold GenerateConfirmationKey
  cases DecodeString identitySecret <;> rfl

/-- C14: the message signed by the confirmation-key function is `timeBytesOf t ++ tag`,
where the shift loop gives for every `int64` time, negative ones included, the 8-byte
big-endian encoding of `t mod 2^64`; two such messages are equal only if the times are
equal and the tags are equal. -/
theorem signed_message_injective (t1 t2 : Int) (tag1 tag2 secret : Bytes)
    (h1 : -(2 ^ 63) ≤ t1 ∧ t1 < 2 ^ 63) (h2 : -(2 ^ 63) ≤ t2 ∧ t2 < 2 ^ 63) :
    GenerateConfirmationKey secret tag1 t1 =
      (match DecodeString secret with
      | none => .error (Failure.error "failed to decode identity secret")
      | some key => .ok (EncodeToString (hmacSha1 key (timeBytesOf t1 ++ tag1)))) ∧
    timeBytesOf t1 = bigEndian8 (t1 % 2 ^ 64).toNat ∧
    (timeBytesOf t1 ++ tag1 = timeBytesOf t2 ++ tag2 ↔ t1 = t2 ∧ tag1 = tag2) := by
  refine ⟨confirmationKey_unfold _ _ _, timeBytesOf_eq t1, ?_, ?_⟩
  · intro h
    have hlen : (timeBytesOf t1).length = (timeBytesOf t2).length := by
      rw [timeBytesOf_length, timeBytesOf_length]
    obtain ⟨hb, htag⟩ := List.append_inj h hlen
    rw [timeBytesOf_eq, timeBytesOf_eq] at hb
    have hu := bigEndian8_inj _ _ (by omega) (by omega) hb
    exact ⟨by omega, htag⟩
  · rintro ⟨rfl, rfl⟩
    rfl

/-- Witness of C14 at the times `-1` and `255`, whose low bytes agree. -/
theorem signed_message_injective_witness :
    (-(2 ^ 63) ≤ (-1 : Int) ∧ (-1 : Int) < 2 ^ 63) ∧
    (-(2 ^ 63) ≤ (255 : Int) ∧ (255 : Int) < 2 ^ 63) ∧
    timeBytesOf (-1) = [255, 255, 255, 255, 255, 255, 255, 255] ∧
    timeBytesOf 255 = [0, 0, 0, 0, 0, 0, 0, 255] ∧
    timeBytesOf (-1) ++ ascii "conf" ≠ timeBytesOf 255 ++ ascii "conf" :=
  ⟨by decide, by decide, by decide, by decide,
    fun h => absurd ((signed_message_injective (-1) 255 (ascii "conf") (ascii "conf") []
      (by decide) (by decide)).2.2.mp h).1 (by decide)⟩

end Steam
